import Mathlib

/-!
Verification development for the Cardstock-Layer-Analyzer repository.

The repository's image-processing core works on decoded RGBA pixel grids
(canvas `ImageData`): `data[i], data[i+1], data[i+2], data[i+3]` are the
R, G, B, A bytes of pixel `i`, listed in row-major order (top-to-bottom,
left-to-right).  The embedding models a decoded image as a width, a height
and the row-major list of RGBA quadruplets; the base64/PNG encoding and
canvas plumbing around every function are not modelled, the pixel-level
algorithms are translated statement by statement.

JavaScript `Map` iterates its entries in key-insertion order and
`Array.prototype.sort` is stable (ES2019), so
`Array.from(m.entries()).sort((a, b) => b[1] - a[1])[0]` is the entry whose
count is maximal and, among those, whose key was inserted first.  The
embedding keeps the map as an insertion-ordered association list (`bump`
reproduces `m.set(k, (m.get(k) || 0) + 1)`) and `pickMax` picks the first
entry with maximal count, which is exactly the head of the stable
descending sort.
-/

namespace Cardstock

/-- An (R,G,B) byte triple.  The source keys its color maps with the string
`"r,g,b"`, which is in bijection with the triple. -/
structure RGB where
  r : Nat
  g : Nat
  b : Nat
deriving DecidableEq

/-- One RGBA pixel of a decoded image. -/
structure RGBA where
  r : Nat
  g : Nat
  b : Nat
  a : Nat
deriving DecidableEq

/-- The color of a pixel, dropping alpha. -/
def RGBA.rgb (p : RGBA) : RGB := ⟨p.r, p.g, p.b⟩

/-- A decoded image: canvas dimensions plus the row-major pixel list of
`ctx.getImageData(0, 0, width, height)`. -/
structure Img where
  width : Nat
  height : Nat
  pixels : List RGBA
deriving DecidableEq

/-- Pixel access at canvas coordinates, `data[4*(y*width+x) .. +3]`.
Out-of-range reads yield the transparent pixel (a fresh canvas is
all-zero). -/
def Img.pix (img : Img) (x y : Nat) : RGBA :=
  img.pixels.getD (y * img.width + x) ⟨0, 0, 0, 0⟩

/-- Whether the image has an opaque pixel (`alpha > 0`) at canvas
coordinates `(x, y)`; coordinates outside the image are transparent. -/
def Img.opaqueAt (img : Img) (x y : Nat) : Bool :=
  decide (x < img.width) && decide (y < img.height) && decide (0 < (img.pix x y).a)

/-- The colors of the opaque pixels (`alpha > 0`, i.e. `alpha !== 0` for a
byte) in scan order.  Every analysis loop of the source skips
`alpha === 0` pixels and reads the `(r,g,b)` of the rest. -/
def opaqueColors (pixels : List RGBA) : List RGB :=
  pixels.filterMap (fun p => if 0 < p.a then some p.rgb else none)

/-- Mirrors `m.set(c, (m.get(c) || 0) + 1)` on an insertion-ordered
association list: an existing key is updated in place, a new key is appended. -/
def bump : List (RGB × Nat) → RGB → List (RGB × Nat)
  | [], c => [(c, 1)]
  | e :: rest, c => if e.1 = c then (e.1, e.2 + 1) :: rest else e :: bump rest c

/-- The color-frequency `Map` built by `extractDominantColor`
(src/unnamed/part_006) and `validateSingleColor` (imageUtils):
count every opaque pixel's color, entries in insertion order. -/
def colorCounts (pixels : List RGBA) : List (RGB × Nat) :=
  (opaqueColors pixels).foldl bump []

/-- The keys of the association list, in order. -/
def alKeys (al : List (RGB × Nat)) : List RGB := al.map Prod.fst

/-- Total count stored for a color (sum over entries with that key; the
lists produced by `bump` have unique keys). -/
def alCount : List (RGB × Nat) → RGB → Nat
  | [], _ => 0
  | e :: rest, c => (if e.1 = c then e.2 else 0) + alCount rest c

/-- Head of the stable sort by descending count:
`entries.sort((a, b) => b[1] - a[1])[0]` returns the first entry attaining
the maximal count. -/
def pickMax : List (RGB × Nat) → Option (RGB × Nat)
  | [] => none
  | e :: rest =>
    match pickMax rest with
    | none => some e
    | some m => if e.2 < m.2 then some m else some e

/-- Insert a color into a running set kept as a first-occurrence-ordered
list (the `Set`/`Map`-key behaviour). -/
def insColor (ks : List RGB) (c : RGB) : List RGB :=
  if c ∈ ks then ks else ks ++ [c]

/-- First-occurrence order of the distinct elements of a list (the key
order of a JS `Map` filled along the list). -/
def fsd (l : List RGB) : List RGB := l.foldl insColor []

/-- Recursive characterization of what a `foldl insColor acc` run appends
after `acc`: the distinct elements of `l` outside `acc`, in
first-occurrence order. -/
def fsdExcl : List RGB → List RGB → List RGB
  | [], _ => []
  | c :: l, acc => if c ∈ acc then fsdExcl l acc else c :: fsdExcl l (acc ++ [c])

/-- The number of distinct colors among the opaque pixels: the size of the
set of distinct opaque RGB triples. -/
def distinctOpaqueColorCount (img : Img) : Nat :=
  (opaqueColors img.pixels).toFinset.card

/-- Embeds `extractDominantColor` (src/unnamed/part_006 lines 15-63): count the
colors of all `alpha > 0` pixels in a `Map`, return the most common one
(stable sort, first entry), and `'0,0,0'` (black) when the map is empty. -/
def extractDominantColor (img : Img) : RGB :=
  match pickMax (colorCounts img.pixels) with
  | none => ⟨0, 0, 0⟩
  | some e => e.1

/-- The result record of `validateSingleColor` (imageUtils):
`{ isValid, colorCount, dominantColor?, reason }`. -/
structure ValidationResult where
  isValid : Bool
  colorCount : Nat
  dominantColor : Option RGB
  reason : String
deriving DecidableEq

/-- Embeds `validateSingleColor` (src/utils/imageUtils.ts lines 195-269) on the
decoded pixel buffer: count the colors of all `alpha !== 0` pixels;
zero distinct colors is the blank failure, one is compliant, more are the
multi-color failure (with the most common color reported). -/
def validateSingleColor (img : Img) : ValidationResult :=
  let colors := colorCounts img.pixels
  if colors.length = 0 then
    ⟨false, 0, none, "Image is completely transparent"⟩
  else if colors.length = 1 then
    ⟨true, 1, colors.head?.map Prod.fst, "Single color detected"⟩
  else
    ⟨false, colors.length, (pickMax colors).map Prod.fst,
      "Multiple colors detected: " ++ toString colors.length ++ " unique colors"⟩

/-- The scanning loop of `checkSingleFillCompliance`
(src/unnamed/part_005 lines 70-106): grow a `Set` of opaque colors and
return `false` as soon as it holds two colors, `size <= 1` at the end. -/
def checkAux : List RGBA → List RGB → Bool
  | [], seen => decide (seen.length ≤ 1)
  | p :: rest, seen =>
    if 0 < p.a then
      if 1 < (insColor seen p.rgb).length then false
      else checkAux rest (insColor seen p.rgb)
    else checkAux rest seen

/-- Embeds `checkSingleFillCompliance` (src/unnamed/part_005 lines 70-106): the
benchmark single-fill check, compliant when at most one distinct opaque
color exists (a fully transparent image passes). -/
def checkSingleFillCompliance (img : Img) : Bool :=
  checkAux img.pixels []

/-- The combined opacity mask built by `weldLayersClientSide`: the current
layer and every previous layer are drawn (source-over) onto one canvas of
the current layer's size, and source-over alpha is positive exactly when
some drawn input's alpha is positive there.  Previous layers larger than
the canvas are clipped; smaller ones leave the rest untouched. -/
def weldMask (cur : Img) (prevs : List Img) (x y : Nat) : Bool :=
  cur.opaqueAt x y || prevs.any (fun p => p.opaqueAt x y)

/-- Build the row-major pixel list of a `width × height` canvas from a
per-coordinate pixel function. -/
def genPixels (w h : Nat) (f : Nat → Nat → RGBA) : List RGBA :=
  (List.range (w * h)).map (fun i => f (i % w) (i / w))

/-- Embeds `weldLayersClientSide` (src/unnamed/part_006 lines 68-163): take the
override color or else the current layer's dominant color, build the
OR-of-masks composite on a canvas of the current layer's dimensions, and
recolor it uniformly: every mask pixel becomes `(r, g, b, 255)`, every
other pixel `(0, 0, 0, 0)`. -/
def weldLayersClientSide (cur : Img) (prevs : List Img) (targetLayerColor : Option RGB) : Img :=
  let dom := targetLayerColor.getD (extractDominantColor cur)
  { width := cur.width
    height := cur.height
    pixels := genPixels cur.width cur.height (fun x y =>
      if weldMask cur prevs x y then ⟨dom.r, dom.g, dom.b, 255⟩ else ⟨0, 0, 0, 0⟩) }

/-! ### Isolation validator and retry controller

`isolateLayerWithValidation` (src/utils/imageUtils.ts lines 274-325) loops
`attempt = 1 .. maxRetries`; each iteration makes exactly one call to the
oracle (`isolateLayer`).  A thrown oracle error is caught inside the loop
body, so the attempt is still consumed (the loop variable advances; the
source comment claiming errors are not counted does not match the code).
A successful call is validated with `validateSingleColor`; a compliant
result is returned immediately with the current attempt number.  Falling
out of the loop throws the exhaustion error.  The oracle is modelled as a
function from the attempt number to its outcome, which covers every
sequence of returned images and thrown errors; the delays between attempts
do not affect the result. -/

/-- An image returned by the oracle: decoded pixels plus the reported MIME
type. -/
structure OracleImage where
  image : Img
  mimeType : String
deriving DecidableEq

/-- The result record of `isolateLayerWithValidation`:
`{ base64, mimeType, attempts, validationInfo }`, with the image kept
decoded. -/
structure IsolationResult where
  image : Img
  mimeType : String
  attempts : Nat
  validationInfo : ValidationResult
deriving DecidableEq

/-- The message of the error thrown when all attempts are exhausted. -/
def exhaustionError (maxRetries : Nat) : String :=
  "Failed to generate single-color layer after " ++ toString maxRetries ++
    " attempts. The AI model may be unable to produce single-fill results for this image/description combination."

/-- The retry loop body: `attempt` is the current attempt number, `fuel`
the number of attempts still allowed. -/
def isolateAux (oracle : Nat → Except String OracleImage) (maxRetries : Nat) :
    Nat → Nat → Except String IsolationResult
  | _, 0 => Except.error (exhaustionError maxRetries)
  | attempt, fuel + 1 =>
    match oracle attempt with
    | Except.error _ => isolateAux oracle maxRetries (attempt + 1) fuel
    | Except.ok res =>
      let validation := validateSingleColor res.image
      if validation.isValid then
        Except.ok ⟨res.image, res.mimeType, attempt, validation⟩
      else
        isolateAux oracle maxRetries (attempt + 1) fuel

/-- Embeds `isolateLayerWithValidation` (src/utils/imageUtils.ts
lines 274-325). -/
def isolateLayerWithValidation (oracle : Nat → Except String OracleImage)
    (maxRetries : Nat) : Except String IsolationResult :=
  isolateAux oracle maxRetries 1 maxRetries

/-- Number of oracle calls the loop body performs (one per executed
iteration). -/
def isolateCallsAux (oracle : Nat → Except String OracleImage) : Nat → Nat → Nat
  | _, 0 => 0
  | attempt, fuel + 1 =>
    match oracle attempt with
    | Except.error _ => 1 + isolateCallsAux oracle (attempt + 1) fuel
    | Except.ok res =>
      if (validateSingleColor res.image).isValid then 1
      else 1 + isolateCallsAux oracle (attempt + 1) fuel

/-- Total number of oracle calls `isolateLayerWithValidation` makes. -/
def isolationOracleCalls (oracle : Nat → Except String OracleImage) (maxRetries : Nat) : Nat :=
  isolateCallsAux oracle 1 maxRetries

/-- Attempt `j` would succeed: the oracle returns an image there and that
image is single-fill compliant. -/
def oracleCompliantAt (oracle : Nat → Except String OracleImage) (j : Nat) : Prop :=
  ∃ res, oracle j = Except.ok res ∧ (validateSingleColor res.image).isValid = true

/-! ### The oracle adapter's isolation call (`geminiService.isolateLayer`)

`isolateLayer` (src/services/geminiService.ts lines 274-320) wraps one
`generateContent` call: on success it scans the response parts for the
first one carrying `inlineData` and returns it; a response without an
image part raises an error inside the `try`.  The `catch` block turns
*every* failure — quota (HTTP 429 / RESOURCE_EXHAUSTED), invalid request,
transient network error, missing image part — into the same generic
`Error("Failed to isolate the layer from the AI model.")`.  The file never
references `apiKeyManager` (the service is constructed once from
`import.meta.env.VITE_API_KEY`), so no call leaves any key-pool state
behind; `isolateLayerRun` makes that explicit by threading an arbitrary
external state unchanged. -/

/-- An API-level error as the Gemini SDK reports it (`code` such as 429,
`status` such as `RESOURCE_EXHAUSTED` or `INVALID_ARGUMENT`). -/
structure ApiError where
  code : Nat
  status : String
deriving DecidableEq

/-- The payload of an image part of a model response. -/
structure ImgData where
  base64 : String
  mimeType : String
deriving DecidableEq

/-- One part of a model response; only `inlineData` is inspected. -/
structure ApiPart where
  inlineData : Option ImgData
deriving DecidableEq

/-- Outcome of the underlying `generateContent` call. -/
inductive ApiOutcome where
  | ok (parts : List ApiPart)
  | err (e : ApiError)
deriving DecidableEq

/-- The single error message `isolateLayer` surfaces for every failure. -/
def genericIsolationFailure : String := "Failed to isolate the layer from the AI model."

/-- Scans the parts: `for (const part of parts) if (part.inlineData)
return part.inlineData`. -/
def firstInlineData : List ApiPart → Option ImgData
  | [] => none
  | p :: rest =>
    match p.inlineData with
    | some d => some d
    | none => firstInlineData rest

/-- Embeds `isolateLayer` (src/services/geminiService.ts lines 274-320)
as a function of the API call's outcome. -/
def isolateLayerCall (outcome : ApiOutcome) : Except String ImgData :=
  match outcome with
  | ApiOutcome.err _ => Except.error genericIsolationFailure
  | ApiOutcome.ok parts =>
    match firstInlineData parts with
    | some d => Except.ok d
    | none => Except.error genericIsolationFailure

/-- Runs `isolateLayer` together with the external mutable state it could have
touched (for instance the key pool): the function body never references
any, so the state passes through unchanged. -/
def isolateLayerRun (σ : Type) (outcome : ApiOutcome) (st : σ) : Except String ImgData × σ :=
  (isolateLayerCall outcome, st)

/-! ### Persistence (`layerStorage`, src/unnamed/part_011)

`saveProject` builds `serializedProject` with
`originalImage: project.originalImage ? this.fileToBase64(...) : null`
(and the same for `currentWorkingImage` and each layer's `imageFile`).
`fileToBase64` returns a `Promise<string>` and is **not awaited**, so the
object handed to `JSON.stringify` holds pending `Promise` values, and
`JSON.stringify` serializes a `Promise` (no enumerable own properties, no
`toJSON`) as the empty object `{}` — the file's bytes never reach the
stored JSON.  `SerSlot.promiseObj` is that stored `{}`.  On load,
`base64ToFile` runs `fetch(dataUrl)` on the parsed value; for the stored
`{}` this is `fetch("[object Object]")`, which cannot yield the original
payload (modelled as the failure that the surrounding `try` turns into
`null`). -/

/-- A `File`: its bytes and MIME type. -/
structure JsFile where
  bytes : List Nat
  mime : String
deriving DecidableEq

/-- Mirrors `LayerData` (src/types.ts). -/
structure LayerData where
  id : String
  name : String
  description : String
  reasoning : String
  isolationDescription : Option String
  imageFile : Option JsFile
  isolated : Bool
  approved : Bool
deriving DecidableEq

/-- Mirrors `ProjectState` (src/types.ts). -/
structure ProjectState where
  originalImage : Option JsFile
  currentWorkingImage : Option JsFile
  layers : List LayerData
  currentLayerIndex : Nat
deriving DecidableEq

/-- What an image field of the project serializes to in the stored JSON:
`null` for an absent image, the empty object `{}` for a present one (the
un-awaited `Promise` from `fileToBase64`). -/
inductive SerSlot where
  | jnull
  | promiseObj
deriving DecidableEq

/-- The serialization of one image field performed by `saveProject`. -/
def serializeImage : Option JsFile → SerSlot
  | none => SerSlot.jnull
  | some _ => SerSlot.promiseObj

/-- A stored layer record: the scalar fields survive `JSON.stringify`
unchanged, the image field becomes a `SerSlot`. -/
structure SerLayer where
  id : String
  name : String
  description : String
  reasoning : String
  isolationDescription : Option String
  imageFile : SerSlot
  isolated : Bool
  approved : Bool
deriving DecidableEq

/-- The stored project JSON. -/
structure SerProject where
  originalImage : SerSlot
  currentWorkingImage : SerSlot
  layers : List SerLayer
  currentLayerIndex : Nat
deriving DecidableEq

/-- Embeds `saveProject` (src/unnamed/part_011 lines 12-29). -/
def saveProject (p : ProjectState) : SerProject :=
  { originalImage := serializeImage p.originalImage
    currentWorkingImage := serializeImage p.currentWorkingImage
    layers := p.layers.map (fun l =>
      { id := l.id
        name := l.name
        description := l.description
        reasoning := l.reasoning
        isolationDescription := l.isolationDescription
        imageFile := serializeImage l.imageFile
        isolated := l.isolated
        approved := l.approved })
    currentLayerIndex := p.currentLayerIndex }

/-- Recovery of one stored image field: a `null` field is left
alone (the `?:` guard skips the conversion), and the stored `{}` makes the
conversion fail — `fetch` of the string `"[object Object]"` cannot recover
the payload. -/
def base64ToFile : SerSlot → Option (Option JsFile)
  | SerSlot.jnull => some none
  | SerSlot.promiseObj => none

/-- Embeds `loadProject` (src/unnamed/part_011 lines 32-53): `none` when nothing
is stored; otherwise rebuild the project, any conversion failure being
caught and collapsed to `null`. -/
def loadProject : Option SerProject → Option ProjectState
  | none => none
  | some sp => do
    let oi ← base64ToFile sp.originalImage
    let cwi ← base64ToFile sp.currentWorkingImage
    let layers ← sp.layers.mapM (fun l =>
      (base64ToFile l.imageFile).map (fun img =>
        { id := l.id
          name := l.name
          description := l.description
          reasoning := l.reasoning
          isolationDescription := l.isolationDescription
          imageFile := img
          isolated := l.isolated
          approved := l.approved : LayerData }))
    some { originalImage := oi
           currentWorkingImage := cwi
           layers := layers
           currentLayerIndex := sp.currentLayerIndex }

/-! ### The pipeline state machine (src/App.tsx)

The project state is mutated by exactly three handlers:
`handleImageUpload` (line 276, fresh project around the uploaded file),
`handleApproveLayer` (line 545, appends the approved layer and increments
`currentLayerIndex`) and `handleClearImage` (line 291, resets everything).
Every other handler (`handleAnalyzeClick`,
`handleGenerateIsolationDescription`, `handleIsolateLayerWithFile`,
`handleWeldLayers`, `handleApproveIsolation`, `handleRerunIsolation`,
`startNextLayerAnalysis`) only updates `imageFile` — always to a non-null
file — and `analysisResult`; these are modelled by the `stageUpdate`
action, which over-approximates them (it may set `imageFile` to any file
and `analysisResult` to anything) while preserving the two facts that
matter: the project is untouched and `imageFile` stays non-null.  The
uploader component is rendered only while `imageFile` is null
(App.tsx line 638), and `handleApproveLayer` returns immediately unless
both `analysisResult` and `imageFile` are set (line 518). -/

/-- The slice of `AnalysisResponse` (src/types.ts) the project transitions
read. -/
structure AnalysisResponse where
  layer1Description : String
  reasoning : String
  isolationDescription : Option String
  layerApproved : Bool
deriving DecidableEq

/-- The App component state the pipeline transitions touch. -/
structure AppState where
  imageFile : Option JsFile
  analysisResult : Option AnalysisResponse
  project : ProjectState
deriving DecidableEq

/-- Initial `useState` values (App.tsx lines 215-229): no image, no
analysis, `{ layers: [], currentLayerIndex: 0 }`. -/
def initialState : AppState :=
  { imageFile := none
    analysisResult := none
    project := { originalImage := none, currentWorkingImage := none, layers := [], currentLayerIndex := 0 } }

/-- Operator actions and completed asynchronous stages. -/
inductive AppAction where
  | upload (f : JsFile)
  | stageUpdate (f : JsFile) (a : Option AnalysisResponse)
  | approveLayer
  | clearImage
deriving DecidableEq

/-- Embeds `handleApproveLayer` (App.tsx lines 517-552): guard on analysis result
and image file, append the layer named after `currentLayerIndex + 1`,
increment `currentLayerIndex`. -/
def approveLayerStep (s : AppState) : AppState :=
  match s.analysisResult, s.imageFile with
  | some a, some f =>
    let n := s.project.currentLayerIndex + 1
    let newLayer : LayerData :=
      { id := "layer-" ++ toString n
        name := "Layer " ++ toString n
        description := a.layer1Description
        reasoning := a.reasoning
        isolationDescription := a.isolationDescription
        imageFile := some f
        isolated := true
        approved := true }
    { imageFile := s.imageFile
      analysisResult := some { a with layerApproved := true }
      project :=
        { originalImage := s.project.originalImage.orElse (fun _ => some f)
          currentWorkingImage := s.project.currentWorkingImage
          layers := s.project.layers ++ [newLayer]
          currentLayerIndex := s.project.currentLayerIndex + 1 } }
  | _, _ => s

/-- One transition of the App state. -/
def step (s : AppState) : AppAction → AppState
  | AppAction.upload f =>
    match s.imageFile with
    | none =>
      { imageFile := some f
        analysisResult := none
        project := { originalImage := some f, currentWorkingImage := some f, layers := [], currentLayerIndex := 0 } }
    | some _ => s
  | AppAction.stageUpdate f a => { s with imageFile := some f, analysisResult := a }
  | AppAction.approveLayer => approveLayerStep s
  | AppAction.clearImage =>
    { imageFile := none
      analysisResult := none
      project := { originalImage := none, currentWorkingImage := none, layers := [], currentLayerIndex := 0 } }

/-- States reachable from the initial App state. -/
inductive Reachable : AppState → Prop
  | init : Reachable initialState
  | step (s : AppState) (a : AppAction) : Reachable s → Reachable (step s a)


/-- Three-pixel buffer with two red and one blue opaque pixels (the spec's
two-color example). -/
def imgTwoColors : Img := ⟨3, 1, [⟨255, 0, 0, 255⟩, ⟨255, 0, 0, 255⟩, ⟨0, 0, 255, 255⟩]⟩

/-- Single-color red buffer. -/
def imgOneColor : Img := ⟨3, 1, [⟨255, 0, 0, 255⟩, ⟨255, 0, 0, 255⟩, ⟨255, 0, 0, 255⟩]⟩

/-- Fully transparent 2×2 buffer. -/
def imgBlank : Img := ⟨2, 2, [⟨0, 0, 0, 0⟩, ⟨0, 0, 0, 0⟩, ⟨0, 0, 0, 0⟩, ⟨0, 0, 0, 0⟩]⟩

/-- Buffer with a blue/red frequency tie, blue encountered first. -/
def imgTie : Img := ⟨4, 1, [⟨0, 0, 255, 255⟩, ⟨255, 0, 0, 255⟩, ⟨0, 0, 255, 255⟩, ⟨255, 0, 0, 255⟩]⟩

/-- The spec's 2×2 welding scenario: top row opaque red. -/
def imgTopRed : Img := ⟨2, 2, [⟨255, 0, 0, 255⟩, ⟨255, 0, 0, 255⟩, ⟨0, 0, 0, 0⟩, ⟨0, 0, 0, 0⟩]⟩

/-- The spec's 2×2 welding scenario: bottom-left pixel opaque blue. -/
def imgBottomLeftBlue : Img := ⟨2, 2, [⟨0, 0, 0, 0⟩, ⟨0, 0, 0, 0⟩, ⟨0, 0, 255, 255⟩, ⟨0, 0, 0, 0⟩]⟩

/-- Oracle stub returning a two-color image on attempts 1-2 and a
one-color image from attempt 3 on (the spec's retry scenario). -/
def wOracle : Nat → Except String OracleImage := fun n =>
  if n ≤ 2 then Except.ok ⟨imgTwoColors, "image/png"⟩ else Except.ok ⟨imgOneColor, "image/png"⟩

/-- Oracle stub that always returns a two-color image. -/
def wBadOracle : Nat → Except String OracleImage := fun _ =>
  Except.ok ⟨imgTwoColors, "image/png"⟩

/-- A file used to drive the pipeline state machine. -/
def wFile : JsFile := ⟨[0], "image/png"⟩

/-- An analysis result used to drive the pipeline state machine. -/
def wAnalysis : AnalysisResponse := ⟨"a red disc", "it is frontmost", some "a red disc alone", false⟩

/-- The App state after uploading `wFile` and completing an analysis. -/
def wState1 : AppState :=
  step (step initialState (AppAction.upload wFile)) (AppAction.stageUpdate wFile (some wAnalysis))

/-- The App state after additionally approving the first layer. -/
def wState2 : AppState := step wState1 AppAction.approveLayer

/-! ### Proof-support definitions for the state-machine invariant and
the persistence counterexample -/

/-- A 1-byte PNG file. -/
def projFileA : JsFile := ⟨[1], "image/png"⟩

/-- A different 1-byte PNG file. -/
def projFileB : JsFile := ⟨[2], "image/png"⟩

/-- A fresh project holding `projFileA`. -/
def projWithA : ProjectState := ⟨some projFileA, some projFileA, [], 0⟩

/-- The same project but holding `projFileB`. -/
def projWithB : ProjectState := ⟨some projFileB, some projFileB, [], 0⟩

/-- The approved layers carry consecutive numbers starting at `n`:
`id = "layer-N"`, `name = "Layer N"`. -/
def layersNumbered : List LayerData → Nat → Prop
  | [], _ => True
  | l :: rest, n => l.id = "layer-" ++ toString n ∧ l.name = "Layer " ++ toString n ∧
      layersNumbered rest (n + 1)

/-- The combined inductive invariant: the project satisfies the
length/numbering invariant, and while no image is loaded (only then is
the uploader rendered) the layer index is zero. -/
def stateInv (s : AppState) : Prop :=
  s.project.layers.length = s.project.currentLayerIndex ∧
  layersNumbered s.project.layers 1 ∧
  (s.imageFile = none → s.project.currentLayerIndex = 0)

/-! ## Lemmas about the insertion-ordered color map -/

theorem alCount_bump (al : List (RGB × Nat)) (c c' : RGB) :
    alCount (bump al c) c' = alCount al c' + (if c = c' then 1 else 0) := by
  induction al with
  | nil => simp [bump, alCount]
  | cons e rest ih =>
    by_cases h : e.1 = c
    · subst h
      simp only [bump, if_pos rfl, alCount]
      by_cases h' : e.1 = c' <;> simp [h'] <;> omega
    · simp [bump, h, alCount, ih]
      omega

theorem alCount_foldl (l : List RGB) (acc : List (RGB × Nat)) (c : RGB) :
    alCount (l.foldl bump acc) c = alCount acc c + l.count c := by
  induction l generalizing acc with
  | nil => simp
  | cons x l ih =>
    simp only [List.foldl_cons, ih, alCount_bump, List.count_cons]
    by_cases h : x = c <;> simp [h] <;> omega

theorem alCount_colorCounts (pixels : List RGBA) (c : RGB) :
    alCount (colorCounts pixels) c = (opaqueColors pixels).count c := by
  simp [colorCounts, alCount_foldl, alCount]

theorem alKeys_bump (al : List (RGB × Nat)) (c : RGB) :
    alKeys (bump al c) = if c ∈ alKeys al then alKeys al else alKeys al ++ [c] := by
  induction al with
  | nil => simp [bump, alKeys]
  | cons e rest ih =>
    by_cases h : e.1 = c
    · simp [bump, h, alKeys]
    · have hne : ¬ c = e.1 := fun hc => h hc.symm
      simp [bump, h, alKeys, hne] at ih ⊢
      rw [ih]
      by_cases hm : c ∈ List.map Prod.fst rest <;> simp [hm, hne]

theorem alKeys_foldl (l : List RGB) (acc : List (RGB × Nat)) :
    alKeys (l.foldl bump acc) = l.foldl insColor (alKeys acc) := by
  induction l generalizing acc with
  | nil => simp
  | cons x l ih =>
    simp only [List.foldl_cons, ih, alKeys_bump, insColor]

theorem foldl_insColor (l : List RGB) (acc : List RGB) :
    l.foldl insColor acc = acc ++ fsdExcl l acc := by
  induction l generalizing acc with
  | nil => simp [fsdExcl]
  | cons c l ih =>
    by_cases hc : c ∈ acc
    · simp only [List.foldl_cons, fsdExcl, if_pos hc]
      rw [show insColor acc c = acc from if_pos hc, ih]
    · simp only [List.foldl_cons, fsdExcl, if_neg hc]
      rw [show insColor acc c = acc ++ [c] from if_neg hc, ih]
      simp

theorem alKeys_colorCounts (pixels : List RGBA) :
    alKeys (colorCounts pixels) = fsd (opaqueColors pixels) := by
  rw [colorCounts, alKeys_foldl]
  rfl

theorem mem_fsdExcl (l : List RGB) (acc : List RGB) (b : RGB) :
    b ∈ fsdExcl l acc ↔ b ∈ l ∧ b ∉ acc := by
  induction l generalizing acc with
  | nil => simp [fsdExcl]
  | cons c l ih =>
    by_cases hc : c ∈ acc
    · simp only [fsdExcl, if_pos hc, ih, List.mem_cons]
      constructor
      · exact fun h => ⟨Or.inr h.1, h.2⟩
      · rintro ⟨hb | hb, hba⟩
        · exact absurd (hb ▸ hc) hba
        · exact ⟨hb, hba⟩
    · simp only [fsdExcl, if_neg hc, List.mem_cons, ih, List.mem_append, List.mem_singleton]
      by_cases hbc : b = c
      · subst hbc
        simp [hc]
      · simp [hbc]

theorem pairwise_fsdExcl (l : List RGB) (acc : List RGB) :
    (fsdExcl l acc).Pairwise (fun a b => l.indexOf a < l.indexOf b) := by
  induction l generalizing acc with
  | nil => simp [fsdExcl]
  | cons c l ih =>
    by_cases hc : c ∈ acc
    · rw [fsdExcl, if_pos hc]
      refine (ih acc).imp_of_mem ?_
      intro a b ha hb hab
      have ha' := (mem_fsdExcl l acc a).mp ha
      have hb' := (mem_fsdExcl l acc b).mp hb
      have hac : c ≠ a := fun h => ha'.2 (h ▸ hc)
      have hbc : c ≠ b := fun h => hb'.2 (h ▸ hc)
      rw [List.indexOf_cons_ne l hac, List.indexOf_cons_ne l hbc]
      omega
    · rw [fsdExcl, if_neg hc]
      refine List.Pairwise.cons ?_ ?_
      · intro b hb
        have hb' := (mem_fsdExcl l (acc ++ [c]) b).mp hb
        have hbc : c ≠ b := by
          intro h
          exact hb'.2 (by simp [h])
        rw [List.indexOf_cons_self, List.indexOf_cons_ne l hbc]
        omega
      · refine (ih (acc ++ [c])).imp_of_mem ?_
        intro a b ha hb hab
        have ha' := (mem_fsdExcl l (acc ++ [c]) a).mp ha
        have hb' := (mem_fsdExcl l (acc ++ [c]) b).mp hb
        have hac : c ≠ a := by
          intro h
          exact ha'.2 (by simp [h])
        have hbc : c ≠ b := by
          intro h
          exact hb'.2 (by simp [h])
        rw [List.indexOf_cons_ne l hac, List.indexOf_cons_ne l hbc]
        omega

theorem fsd_eq_fsdExcl (l : List RGB) : fsd l = fsdExcl l [] := by
  rw [fsd, foldl_insColor]
  simp

theorem mem_fsd (l : List RGB) (b : RGB) : b ∈ fsd l ↔ b ∈ l := by
  rw [fsd_eq_fsdExcl, mem_fsdExcl]
  simp

theorem pairwise_fsd (l : List RGB) :
    (fsd l).Pairwise (fun a b => l.indexOf a < l.indexOf b) := by
  rw [fsd_eq_fsdExcl]
  exact pairwise_fsdExcl l []

theorem nodup_fsd (l : List RGB) : (fsd l).Nodup := by
  refine (pairwise_fsd l).imp ?_
  intro a b hab heq
  subst heq
  omega

theorem fsd_length (l : List RGB) : (fsd l).length = l.toFinset.card := by
  have h1 : (fsd l).toFinset = l.toFinset := by
    ext b
    simp [List.mem_toFinset, mem_fsd]
  rw [← h1, List.toFinset_card_of_nodup (nodup_fsd l)]

/-! ## Lemmas about `pickMax` (head of the stable descending sort) -/

theorem pickMax_eq_none (al : List (RGB × Nat)) : pickMax al = none ↔ al = [] := by
  cases al with
  | nil => simp [pickMax]
  | cons e rest =>
    simp only [pickMax]
    cases pickMax rest with
    | none => simp
    | some m =>
      by_cases h : e.2 < m.2 <;> simp [h]

theorem pickMax_decomp (al : List (RGB × Nat)) (e : RGB × Nat) (h : pickMax al = some e) :
    ∃ pre suf, al = pre ++ e :: suf ∧ (∀ x ∈ pre, x.2 < e.2) ∧ (∀ x ∈ suf, x.2 ≤ e.2) := by
  induction al generalizing e with
  | nil => simp [pickMax] at h
  | cons a rest ih =>
    cases hr : pickMax rest with
    | none =>
      have hrest : rest = [] := (pickMax_eq_none rest).mp hr
      subst hrest
      have ha : a = e := by
        have h2 : pickMax [a] = some a := rfl
        rw [h2] at h
        injection h
      subst ha
      exact ⟨[], [], by simp, by simp, by simp⟩
    | some m =>
      simp only [pickMax, hr] at h
      by_cases hlt : a.2 < m.2
      · rw [if_pos hlt] at h
        obtain ⟨pre, suf, hdecomp, hpre, hsuf⟩ := ih m hr
        have hme : m = e := by injection h
        subst hme
        refine ⟨a :: pre, suf, by rw [hdecomp]; simp, ?_, hsuf⟩
        intro x hx
        rcases List.mem_cons.mp hx with hxa | hxp
        · subst hxa; exact hlt
        · exact hpre x hxp
      · rw [if_neg hlt] at h
        have hae : a = e := by injection h
        subst hae
        obtain ⟨pre, suf, hdecomp, hpre, hsuf⟩ := ih m hr
        refine ⟨[], rest, by simp, by simp, ?_⟩
        intro x hx
        rw [hdecomp] at hx
        rcases List.mem_append.mp hx with hxp | hxs
        · exact Nat.le_of_lt (Nat.lt_of_lt_of_le (hpre x hxp) (Nat.le_of_not_lt hlt))
        · rcases List.mem_cons.mp hxs with hxm | hxs'
          · subst hxm; exact Nat.le_of_not_lt hlt
          · exact Nat.le_trans (hsuf x hxs') (Nat.le_of_not_lt hlt)

theorem alCount_eq_zero (al : List (RGB × Nat)) (c : RGB) (h : c ∉ alKeys al) :
    alCount al c = 0 := by
  induction al with
  | nil => rfl
  | cons e rest ih =>
    simp only [alKeys, List.map_cons, List.mem_cons] at h
    push_neg at h
    simp only [alCount]
    rw [if_neg (fun hh => h.1 hh.symm), ih (by simpa [alKeys] using h.2)]

theorem alCount_of_mem_nodup (al : List (RGB × Nat)) (c : RGB) (m : Nat)
    (hnd : (alKeys al).Nodup) (hmem : (c, m) ∈ al) : alCount al c = m := by
  induction al with
  | nil => simp at hmem
  | cons e rest ih =>
    simp only [alKeys, List.map_cons, List.nodup_cons] at hnd
    rcases List.mem_cons.mp hmem with he | hr
    · subst he
      simp only [alCount]
      rw [alCount_eq_zero rest c hnd.1]
      simp
    · have hcr : c ∈ alKeys rest := List.mem_map.mpr ⟨(c, m), hr, rfl⟩
      have hne : e.1 ≠ c := fun h => hnd.1 (h ▸ hcr)
      simp only [alCount, if_neg hne, ih hnd.2 hr, Nat.zero_add]

theorem mem_alKeys_iff (al : List (RGB × Nat)) (c : RGB) :
    c ∈ alKeys al ↔ ∃ m, (c, m) ∈ al := by
  simp only [alKeys, List.mem_map]
  constructor
  · rintro ⟨⟨c', m⟩, hmem, rfl⟩
    exact ⟨m, hmem⟩
  · rintro ⟨m, hmem⟩
    exact ⟨(c, m), hmem, rfl⟩

theorem colorCounts_ne_nil (pixels : List RGBA) (h : opaqueColors pixels ≠ []) :
    colorCounts pixels ≠ [] := by
  obtain ⟨b, hb⟩ := List.exists_mem_of_ne_nil _ h
  have hbf : b ∈ fsd (opaqueColors pixels) := (mem_fsd _ b).mpr hb
  rw [← alKeys_colorCounts] at hbf
  intro hnil
  rw [hnil] at hbf
  simp [alKeys] at hbf

/-- C4: `extractDominantColor` returns the most frequent color among the
`alpha > 0` pixels, ties broken in favour of the color whose first
occurrence in the row-major pixel scan comes first, and black `(0,0,0)`
when no opaque pixel exists.  `opaqueColors img.pixels` is the scan-order
list of opaque-pixel colors, so `count` is the frequency and `indexOf` the
first-encounter position. -/
theorem extractDominantColor_spec (img : Img) :
    (opaqueColors img.pixels = [] → extractDominantColor img = ⟨0, 0, 0⟩) ∧
    (opaqueColors img.pixels ≠ [] →
      extractDominantColor img ∈ opaqueColors img.pixels ∧
      (∀ c ∈ opaqueColors img.pixels,
        (opaqueColors img.pixels).count c ≤
          (opaqueColors img.pixels).count (extractDominantColor img)) ∧
      (∀ c ∈ opaqueColors img.pixels,
        (opaqueColors img.pixels).count c =
          (opaqueColors img.pixels).count (extractDominantColor img) →
        c ≠ extractDominantColor img →
        (opaqueColors img.pixels).indexOf (extractDominantColor img) <
          (opaqueColors img.pixels).indexOf c)) := by
  constructor
  · intro h
    have hcc : colorCounts img.pixels = [] := by
      rw [colorCounts, h]
      rfl
    rw [extractDominantColor, hcc]
    rfl
  · intro h
    have hal : colorCounts img.pixels ≠ [] := colorCounts_ne_nil _ h
    obtain ⟨e, he⟩ : ∃ e, pickMax (colorCounts img.pixels) = some e := by
      cases hp : pickMax (colorCounts img.pixels) with
      | none => exact absurd ((pickMax_eq_none _).mp hp) hal
      | some e => exact ⟨e, rfl⟩
    have hres : extractDominantColor img = e.1 := by
      rw [extractDominantColor, he]
    obtain ⟨pre, suf, hdecomp, hpre, hsuf⟩ := pickMax_decomp _ e he
    have hnd : (alKeys (colorCounts img.pixels)).Nodup := by
      rw [alKeys_colorCounts]
      exact nodup_fsd _
    have hemem : e ∈ colorCounts img.pixels := by
      rw [hdecomp]
      exact List.mem_append.mpr (Or.inr (List.mem_cons_self _ _))
    have hkeymem : e.1 ∈ alKeys (colorCounts img.pixels) :=
      List.mem_map.mpr ⟨e, hemem, rfl⟩
    have hresl : e.1 ∈ opaqueColors img.pixels := by
      rw [alKeys_colorCounts, mem_fsd] at hkeymem
      exact hkeymem
    have hcount_e : (opaqueColors img.pixels).count e.1 = e.2 := by
      rw [← alCount_colorCounts]
      exact alCount_of_mem_nodup _ e.1 e.2 hnd hemem
    have hentry : ∀ c ∈ opaqueColors img.pixels,
        (c, (opaqueColors img.pixels).count c) ∈ colorCounts img.pixels := by
      intro c hc
      have hck : c ∈ alKeys (colorCounts img.pixels) := by
        rw [alKeys_colorCounts, mem_fsd]
        exact hc
      obtain ⟨m, hm⟩ := (mem_alKeys_iff _ c).mp hck
      have hacm : alCount (colorCounts img.pixels) c = m :=
        alCount_of_mem_nodup _ c m hnd hm
      have hcm : (opaqueColors img.pixels).count c = m := by
        rw [← alCount_colorCounts, hacm]
      rw [hcm]
      exact hm
    refine ⟨hres ▸ hresl, ?_, ?_⟩
    · intro c hc
      rw [hres, hcount_e]
      have hcmem := hentry c hc
      rw [hdecomp] at hcmem
      rcases List.mem_append.mp hcmem with hp | hp
      · exact Nat.le_of_lt (hpre _ hp)
      · rcases List.mem_cons.mp hp with hpe | hps
        · have : (opaqueColors img.pixels).count c = e.2 := congrArg Prod.snd hpe
          omega
        · exact hsuf _ hps
    · intro c hc hcnt hne
      rw [hres] at hcnt hne ⊢
      rw [hcount_e] at hcnt
      have hcmem := hentry c hc
      rw [hdecomp] at hcmem
      rcases List.mem_append.mp hcmem with hp | hp
      · have := hpre _ hp
        simp only at this
        omega
      · rcases List.mem_cons.mp hp with hpe | hps
        · exact absurd (congrArg Prod.fst hpe) hne
        · have hpw : (alKeys (colorCounts img.pixels)).Pairwise
              (fun a b => (opaqueColors img.pixels).indexOf a <
                (opaqueColors img.pixels).indexOf b) := by
            rw [alKeys_colorCounts]
            exact pairwise_fsd _
          rw [hdecomp] at hpw
          simp only [alKeys, List.map_append, List.map_cons] at hpw
          have hpw2 := hpw.sublist (List.sublist_append_right _ _)
          have hcsuf : c ∈ List.map Prod.fst suf :=
            List.mem_map.mpr ⟨(c, (opaqueColors img.pixels).count c), hps, rfl⟩
          exact (List.pairwise_cons.mp hpw2).1 c hcsuf

/-! ## Single-fill validation lemmas -/

theorem colorCounts_length (pixels : List RGBA) :
    (colorCounts pixels).length = (opaqueColors pixels).toFinset.card := by
  have h1 : (colorCounts pixels).length = (alKeys (colorCounts pixels)).length := by
    simp [alKeys]
  rw [h1, alKeys_colorCounts, fsd_length]

theorem colorCounts_eq_nil_iff (pixels : List RGBA) :
    colorCounts pixels = [] ↔ opaqueColors pixels = [] := by
  constructor
  · intro h
    by_contra hne
    obtain ⟨b, hb⟩ := List.exists_mem_of_ne_nil _ hne
    have hbf : b ∈ fsd (opaqueColors pixels) := (mem_fsd _ b).mpr hb
    rw [← alKeys_colorCounts, h] at hbf
    simp [alKeys] at hbf
  · intro h
    rw [colorCounts, h]
    rfl

theorem validateSingleColor_eq (img : Img) :
    validateSingleColor img =
      if (colorCounts img.pixels).length = 0 then
        ⟨false, 0, none, "Image is completely transparent"⟩
      else if (colorCounts img.pixels).length = 1 then
        ⟨true, 1, (colorCounts img.pixels).head?.map Prod.fst, "Single color detected"⟩
      else
        ⟨false, (colorCounts img.pixels).length,
          (pickMax (colorCounts img.pixels)).map Prod.fst,
          "Multiple colors detected: " ++ toString (colorCounts img.pixels).length ++
            " unique colors"⟩ := rfl

/-- C1: `validateSingleColor` is compliant exactly when the set of
distinct opaque RGB triples has size one; its `colorCount` field is that
set's size; and a buffer with no opaque pixel yields the non-compliant
blank result (`reason` the source's
`'Image is completely transparent'`). -/
theorem validateSingleColor_spec (img : Img) :
    ((validateSingleColor img).isValid = true ↔ distinctOpaqueColorCount img = 1) ∧
    (validateSingleColor img).colorCount = distinctOpaqueColorCount img ∧
    (distinctOpaqueColorCount img = 0 →
      validateSingleColor img = ⟨false, 0, none, "Image is completely transparent"⟩) := by
  have hlen : (colorCounts img.pixels).length = distinctOpaqueColorCount img := by
    rw [colorCounts_length]
    rfl
  rw [validateSingleColor_eq]
  by_cases h0 : (colorCounts img.pixels).length = 0
  · rw [if_pos h0]
    rw [h0] at hlen
    refine ⟨?_, hlen, fun _ => rfl⟩
    simp [← hlen]
  · rw [if_neg h0]
    by_cases h1 : (colorCounts img.pixels).length = 1
    · rw [if_pos h1]
      rw [h1] at hlen
      exact ⟨by simp [← hlen], hlen, fun h => absurd (hlen.trans h) one_ne_zero⟩
    · rw [if_neg h1]
      refine ⟨by simp [← hlen, h1], hlen, fun h => absurd (hlen.trans h) h0⟩

theorem length_foldl_insColor (l : List RGB) (acc : List RGB) :
    ((l.foldl insColor acc).length) = acc.length + (fsdExcl l acc).length := by
  rw [foldl_insColor]
  simp

theorem checkAux_spec (l : List RGBA) (seen : List RGB) :
    checkAux l seen = decide (((opaqueColors l).foldl insColor seen).length ≤ 1) := by
  induction l generalizing seen with
  | nil => rfl
  | cons p rest ih =>
    by_cases hp : 0 < p.a
    · have ho : opaqueColors (p :: rest) = p.rgb :: opaqueColors rest := by
        simp [opaqueColors, hp]
      rw [ho, List.foldl_cons]
      by_cases h1 : 1 < (insColor seen p.rgb).length
      · rw [checkAux, if_pos hp, if_pos h1]
        have hmono : (insColor seen p.rgb).length ≤
            ((opaqueColors rest).foldl insColor (insColor seen p.rgb)).length := by
          rw [length_foldl_insColor]
          omega
        have : ¬ ((opaqueColors rest).foldl insColor (insColor seen p.rgb)).length ≤ 1 := by
          omega
        simp [this]
      · rw [checkAux, if_pos hp, if_neg h1]
        exact ih (insColor seen p.rgb)
    · have ho : opaqueColors (p :: rest) = opaqueColors rest := by
        simp [opaqueColors, hp]
      rw [ho, checkAux, if_neg hp]
      exact ih seen

theorem checkSingleFillCompliance_eq (img : Img) :
    checkSingleFillCompliance img =
      decide (distinctOpaqueColorCount img ≤ 1) := by
  rw [checkSingleFillCompliance, checkAux_spec]
  have h1 : (opaqueColors img.pixels).foldl insColor [] = fsd (opaqueColors img.pixels) := rfl
  rw [h1]
  have h2 : (fsd (opaqueColors img.pixels)).length = distinctOpaqueColorCount img := by
    rw [fsd_length]
    rfl
  rw [h2]

/-- C10: the benchmark checker `checkSingleFillCompliance` accepts zero or
one distinct opaque colors while the gating validator
`validateSingleColor` rejects zero, so on a fully transparent buffer the
first is compliant and the second is not — and blank buffers are exactly
where the two checks disagree. -/
theorem singleFill_checks_disagree_on_blank (img : Img) :
    (opaqueColors img.pixels = [] →
      checkSingleFillCompliance img = true ∧ (validateSingleColor img).isValid = false) ∧
    ((checkSingleFillCompliance img ≠ (validateSingleColor img).isValid) ↔
      opaqueColors img.pixels = []) := by
  have hd0 : distinctOpaqueColorCount img = 0 ↔ opaqueColors img.pixels = [] := by
    rw [distinctOpaqueColorCount, Finset.card_eq_zero, List.toFinset_eq_empty_iff]
  have hvalid : (validateSingleColor img).isValid = decide (distinctOpaqueColorCount img = 1) := by
    rcases (validateSingleColor_spec img).1 with h
    by_cases h1 : distinctOpaqueColorCount img = 1
    · simp [h1, h.mpr h1]
    · simp only [h1, decide_False]
      by_contra hne
      have : (validateSingleColor img).isValid = true := by
        cases hv : (validateSingleColor img).isValid
        · exact absurd hv hne
        · rfl
      exact h1 (h.mp this)
  rw [checkSingleFillCompliance_eq, hvalid]
  constructor
  · intro hblank
    have h0 : distinctOpaqueColorCount img = 0 := hd0.mpr hblank
    simp [h0]
  · rw [← hd0]
    by_cases h0 : distinctOpaqueColorCount img = 0
    · simp [h0]
    · by_cases h1 : distinctOpaqueColorCount img = 1
      · simp [h0, h1]
      · have : ¬ distinctOpaqueColorCount img ≤ 1 := by omega
        simp [h0, h1, this]

/-! ## Welding lemmas -/

theorem Img.ext' (i1 i2 : Img) (hw : i1.width = i2.width) (hh : i1.height = i2.height)
    (hp : i1.pixels = i2.pixels) : i1 = i2 := by
  cases i1
  cases i2
  simp_all

theorem genPixels_length (w h : Nat) (f : Nat → Nat → RGBA) :
    (genPixels w h f).length = w * h := by
  simp [genPixels]

theorem coord_index_lt (w h x y : Nat) (hx : x < w) (hy : y < h) : y * w + x < w * h := by
  have h1 : y * w + x < y * w + w := by omega
  have h2 : y * w + w = (y + 1) * w := by ring
  have h3 : (y + 1) * w ≤ h * w := Nat.mul_le_mul_right w hy
  have h4 : h * w = w * h := Nat.mul_comm h w
  omega

theorem genPixels_pix (w h : Nat) (f : Nat → Nat → RGBA) (x y : Nat)
    (hx : x < w) (hy : y < h) :
    (genPixels w h f).getD (y * w + x) ⟨0, 0, 0, 0⟩ = f x y := by
  have hlt : y * w + x < w * h := coord_index_lt w h x y hx hy
  have hlen : y * w + x < (genPixels w h f).length := by
    rw [genPixels_length]
    exact hlt
  rw [List.getD_eq_getElem _ _ hlen]
  have hw0 : 0 < w := Nat.pos_of_ne_zero (by rintro rfl; omega)
  have hmod : (y * w + x) % w = x := by
    rw [Nat.mul_comm y w, Nat.mul_add_mod, Nat.mod_eq_of_lt hx]
  have hdiv : (y * w + x) / w = y := by
    rw [Nat.mul_comm y w, Nat.mul_add_div hw0, Nat.div_eq_of_lt hx]
    omega
  simp [genPixels, hmod, hdiv]

theorem genPixels_congr (w h : Nat) (f g : Nat → Nat → RGBA)
    (hfg : ∀ x y, x < w → y < h → f x y = g x y) :
    genPixels w h f = genPixels w h g := by
  apply List.map_congr_left
  intro i hi
  rw [List.mem_range] at hi
  have hw0 : 0 < w := by
    rcases Nat.eq_zero_or_pos w with hw | hw
    · subst hw
      rw [Nat.zero_mul] at hi
      omega
    · exact hw
  refine hfg (i % w) (i / w) (Nat.mod_lt i hw0) ?_
  rw [Nat.div_lt_iff_lt_mul hw0, Nat.mul_comm h w]
  exact hi

theorem weld_width (cur : Img) (prevs : List Img) (tc : Option RGB) :
    (weldLayersClientSide cur prevs tc).width = cur.width := rfl

theorem weld_height (cur : Img) (prevs : List Img) (tc : Option RGB) :
    (weldLayersClientSide cur prevs tc).height = cur.height := rfl

theorem weld_pixels (cur : Img) (prevs : List Img) (tc : Option RGB) :
    (weldLayersClientSide cur prevs tc).pixels =
      genPixels cur.width cur.height (fun x y =>
        if weldMask cur prevs x y then
          ⟨(tc.getD (extractDominantColor cur)).r, (tc.getD (extractDominantColor cur)).g,
            (tc.getD (extractDominantColor cur)).b, 255⟩
        else ⟨0, 0, 0, 0⟩) := rfl

theorem weld_pix (cur : Img) (prevs : List Img) (tc : Option RGB) (x y : Nat)
    (hx : x < cur.width) (hy : y < cur.height) :
    (weldLayersClientSide cur prevs tc).pix x y =
      if weldMask cur prevs x y then
        ⟨(tc.getD (extractDominantColor cur)).r, (tc.getD (extractDominantColor cur)).g,
          (tc.getD (extractDominantColor cur)).b, 255⟩
      else ⟨0, 0, 0, 0⟩ := by
  show (weldLayersClientSide cur prevs tc).pixels.getD
      (y * (weldLayersClientSide cur prevs tc).width + x) ⟨0, 0, 0, 0⟩ = _
  rw [weld_width, weld_pixels]
  exact genPixels_pix cur.width cur.height _ x y hx hy

theorem opaqueAt_in_range (img : Img) (x y : Nat) (hx : x < img.width) (hy : y < img.height) :
    img.opaqueAt x y = decide (0 < (img.pix x y).a) := by
  simp [Img.opaqueAt, hx, hy]

theorem extractDominantColor_mem (img : Img) (h : opaqueColors img.pixels ≠ []) :
    extractDominantColor img ∈ opaqueColors img.pixels := by
  have hal : colorCounts img.pixels ≠ [] := colorCounts_ne_nil _ h
  obtain ⟨e, he⟩ : ∃ e, pickMax (colorCounts img.pixels) = some e := by
    cases hp : pickMax (colorCounts img.pixels) with
    | none => exact absurd ((pickMax_eq_none _).mp hp) hal
    | some e => exact ⟨e, rfl⟩
  obtain ⟨pre, suf, hdecomp, -, -⟩ := pickMax_decomp _ e he
  have hres : extractDominantColor img = e.1 := by
    rw [extractDominantColor, he]
  have hemem : e ∈ colorCounts img.pixels := by
    rw [hdecomp]
    exact List.mem_append.mpr (Or.inr (List.mem_cons_self _ _))
  have hkeymem : e.1 ∈ alKeys (colorCounts img.pixels) := List.mem_map.mpr ⟨e, hemem, rfl⟩
  rw [alKeys_colorCounts, mem_fsd] at hkeymem
  rw [hres]
  exact hkeymem

/-- C3: welding layer A against [B] (equal dimensions, no override color)
produces an image whose opaque pixels are exactly the union of A's and B's
opaque pixels, every such pixel colored with A's dominant color at full
alpha, and pixels opaque in neither input transparent. -/
theorem weldLayersClientSide_union_spec (A B : Img)
    (hw : B.width = A.width) (hh : B.height = A.height) :
    (weldLayersClientSide A [B] none).width = A.width ∧
    (weldLayersClientSide A [B] none).height = A.height ∧
    ∀ x y, x < A.width → y < A.height →
      ((0 < ((weldLayersClientSide A [B] none).pix x y).a ↔
          0 < (A.pix x y).a ∨ 0 < (B.pix x y).a) ∧
        (0 < ((weldLayersClientSide A [B] none).pix x y).a →
          ((weldLayersClientSide A [B] none).pix x y).rgb = extractDominantColor A ∧
          ((weldLayersClientSide A [B] none).pix x y).a = 255) ∧
        ((A.pix x y).a = 0 ∧ (B.pix x y).a = 0 →
          ((weldLayersClientSide A [B] none).pix x y).a = 0)) := by
  refine ⟨weld_width A [B] none, weld_height A [B] none, ?_⟩
  intro x y hx hy
  have hpix := weld_pix A [B] none x y hx hy
  have hmask : weldMask A [B] x y = (decide (0 < (A.pix x y).a) || decide (0 < (B.pix x y).a)) := by
    rw [weldMask]
    simp only [List.any_cons, List.any_nil, Bool.or_false]
    rw [opaqueAt_in_range A x y hx hy, opaqueAt_in_range B x y (hw ▸ hx) (hh ▸ hy)]
  by_cases hm : weldMask A [B] x y = true
  · rw [hm] at hpix
    rw [if_pos rfl] at hpix
    rw [hm] at hmask
    have hor : 0 < (A.pix x y).a ∨ 0 < (B.pix x y).a := by
      have := hmask.symm
      rcases Bool.or_eq_true_iff.mp this with h | h
      · exact Or.inl (of_decide_eq_true h)
      · exact Or.inr (of_decide_eq_true h)
    rw [hpix]
    refine ⟨by simpa using hor, fun _ => ⟨rfl, rfl⟩, ?_⟩
    rintro ⟨ha, hb⟩
    rcases hor with h | h <;> omega
  · have hm' : weldMask A [B] x y = false := by
      cases hmm : weldMask A [B] x y
      · rfl
      · exact absurd hmm hm
    rw [hm'] at hpix
    rw [if_neg (by simp)] at hpix
    rw [hm'] at hmask
    have hnor : ¬ (0 < (A.pix x y).a ∨ 0 < (B.pix x y).a) := by
      intro hor
      have : (decide (0 < (A.pix x y).a) || decide (0 < (B.pix x y).a)) = true := by
        rcases hor with h | h <;> simp [h]
      rw [← hmask] at this
      simp at this
    rw [hpix]
    refine ⟨by simpa using hnor, ?_, fun _ => rfl⟩
    intro hcontra
    simp at hcontra

/-- C5, amended: `weldLayersClientSide` performs no dimension check and
has no failure path for mismatched inputs; the output always takes the
current layer's dimensions, a pixel is opaque exactly when some input is
opaque there (previous layers clipped to the current canvas), so
mismatched previous layers are silently clipped instead of raising a
`DimensionMismatchError`. -/
theorem weld_no_dimension_check (cur : Img) (prevs : List Img) (tc : Option RGB) :
    (weldLayersClientSide cur prevs tc).width = cur.width ∧
    (weldLayersClientSide cur prevs tc).height = cur.height ∧
    ∀ x y, x < cur.width → y < cur.height →
      (0 < ((weldLayersClientSide cur prevs tc).pix x y).a ↔
        cur.opaqueAt x y = true ∨ ∃ p ∈ prevs, p.opaqueAt x y = true) := by
  refine ⟨weld_width cur prevs tc, weld_height cur prevs tc, ?_⟩
  intro x y hx hy
  have hpix := weld_pix cur prevs tc x y hx hy
  by_cases hm : weldMask cur prevs x y = true
  · rw [hm, if_pos rfl] at hpix
    rw [hpix]
    simp only [show (0:Nat) < 255 from by omega, true_iff]
    rcases Bool.or_eq_true_iff.mp (by rw [← weldMask]; exact hm) with h | h
    · exact Or.inl h
    · rcases List.any_eq_true.mp h with ⟨p, hp, hpo⟩
      exact Or.inr ⟨p, hp, hpo⟩
  · have hm' : weldMask cur prevs x y = false := by
      cases hmm : weldMask cur prevs x y
      · rfl
      · exact absurd hmm hm
    rw [hm', if_neg (by simp)] at hpix
    rw [hpix]
    simp only [Nat.lt_irrefl, false_iff]
    rintro (h | ⟨p, hp, hpo⟩)
    · exact hm (by rw [weldMask, h]; simp)
    · refine hm ?_
      rw [weldMask]
      have : prevs.any (fun p => p.opaqueAt x y) = true := List.any_eq_true.mpr ⟨p, hp, hpo⟩
      rw [this]
      simp

/-- C5, counterexample: welding a 1×1 current layer against a 2×1
previous layer (mismatched widths) does not fail — it returns a composite
image (here with an opaque pixel contributed by the mismatched layer)
instead of raising any `DimensionMismatchError`; no such error exists in
the code. -/
theorem weld_mismatched_dims_composite :
    weldLayersClientSide ⟨1, 1, [⟨0, 0, 0, 0⟩]⟩
        [⟨2, 1, [⟨0, 0, 255, 255⟩, ⟨0, 0, 255, 255⟩]⟩] none =
      ⟨1, 1, [⟨0, 0, 0, 255⟩]⟩ ∧
    (2 : Nat) ≠ 1 := by
  constructor
  · rfl
  · decide

theorem eq_false_of_not_true (b : Bool) (h : ¬ b = true) : b = false := by
  cases b
  · rfl
  · exact absurd rfl h

theorem genPixels_mem (w h : Nat) (f : Nat → Nat → RGBA) (x y : Nat)
    (hx : x < w) (hy : y < h) : f x y ∈ genPixels w h f := by
  rw [genPixels]
  refine List.mem_map.mpr ⟨y * w + x, List.mem_range.mpr (coord_index_lt w h x y hx hy), ?_⟩
  have hw0 : 0 < w := by omega
  have hmod : (y * w + x) % w = x := by
    rw [Nat.mul_comm y w, Nat.mul_add_mod, Nat.mod_eq_of_lt hx]
  have hdiv : (y * w + x) / w = y := by
    rw [Nat.mul_comm y w, Nat.mul_add_div hw0, Nat.div_eq_of_lt hx]
    omega
  rw [hmod, hdiv]

theorem genPixels_mem_inv (w h : Nat) (f : Nat → Nat → RGBA) (p : RGBA)
    (hp : p ∈ genPixels w h f) : ∃ x y, x < w ∧ y < h ∧ p = f x y := by
  rw [genPixels] at hp
  obtain ⟨i, hi, hval⟩ := List.mem_map.mp hp
  rw [List.mem_range] at hi
  have hw0 : 0 < w := by
    rcases Nat.eq_zero_or_pos w with hw | hw
    · subst hw
      rw [Nat.zero_mul] at hi
      omega
    · exact hw
  refine ⟨i % w, i / w, Nat.mod_lt i hw0, ?_, hval.symm⟩
  rw [Nat.div_lt_iff_lt_mul hw0, Nat.mul_comm h w]
  exact hi

theorem extractDominantColor_of_const (img : Img) (d : RGB)
    (hmem : d ∈ opaqueColors img.pixels)
    (hall : ∀ c ∈ opaqueColors img.pixels, c = d) :
    extractDominantColor img = d := by
  have hne : opaqueColors img.pixels ≠ [] := List.ne_nil_of_mem hmem
  exact hall _ (extractDominantColor_mem img hne)

theorem weldMask_weld_self (A B : Img) (x y : Nat) (hx : x < A.width) (hy : y < A.height) :
    weldMask (weldLayersClientSide A [B] none) [] x y = weldMask A [B] x y := by
  rw [weldMask]
  simp only [List.any_nil, Bool.or_false]
  rw [opaqueAt_in_range _ x y (by rw [weld_width]; exact hx) (by rw [weld_height]; exact hy)]
  rw [weld_pix A [B] none x y hx hy]
  by_cases hm : weldMask A [B] x y = true
  · rw [hm, if_pos rfl]
    simp
  · rw [eq_false_of_not_true _ hm, if_neg (by simp)]
    simp

theorem weld_dominant_self (A B : Img) (x0 y0 : Nat)
    (hx0 : x0 < A.width) (hy0 : y0 < A.height) (hm0 : weldMask A [B] x0 y0 = true) :
    extractDominantColor (weldLayersClientSide A [B] none) = extractDominantColor A := by
  apply extractDominantColor_of_const
  · apply List.mem_filterMap.mpr
    refine ⟨⟨(extractDominantColor A).r, (extractDominantColor A).g,
      (extractDominantColor A).b, 255⟩, ?_, by simp [RGBA.rgb]⟩
    rw [weld_pixels]
    have hmem := genPixels_mem A.width A.height (fun x y =>
      if weldMask A [B] x y then
        ⟨(Option.getD none (extractDominantColor A)).r, (Option.getD none (extractDominantColor A)).g,
          (Option.getD none (extractDominantColor A)).b, 255⟩
      else ⟨0, 0, 0, 0⟩) x0 y0 hx0 hy0
    simp only [hm0, if_pos rfl, Option.getD] at hmem
    exact hmem
  · intro c hc
    obtain ⟨p, hp, hpc⟩ := List.mem_filterMap.mp hc
    rw [weld_pixels] at hp
    obtain ⟨x, y, hx, hy, rfl⟩ := genPixels_mem_inv _ _ _ p hp
    by_cases hm : weldMask A [B] x y = true
    · rw [hm] at hpc
      simp [RGBA.rgb] at hpc
      exact hpc.symm
    · rw [eq_false_of_not_true _ hm] at hpc
      simp at hpc

/-- C6: re-welding an already-welded composite with no additional layers
and no override color reproduces it byte for byte: the opaque mask is
unchanged and, because the welded image carries a single color, the
recomputed dominant color cannot differ. -/
theorem weldLayersClientSide_idempotent (A B : Img) :
    weldLayersClientSide (weldLayersClientSide A [B] none) [] none =
      weldLayersClientSide A [B] none := by
  apply Img.ext'
  · rw [weld_width, weld_width]
  · rw [weld_height, weld_height]
  · rw [weld_pixels (weldLayersClientSide A [B] none) [] none]
    rw [weld_width, weld_height]
    conv_rhs => rw [weld_pixels A [B] none]
    apply genPixels_congr
    intro x y hx hy
    rw [weldMask_weld_self A B x y hx hy]
    by_cases hm : weldMask A [B] x y = true
    · rw [hm]
      simp only [if_pos rfl]
      rw [weld_dominant_self A B x y hx hy hm]
    · rw [eq_false_of_not_true _ hm]
      simp

/-! ## Retry controller lemmas -/

theorem isolateAux_calls_le (oracle : Nat → Except String OracleImage) (a fuel : Nat) :
    isolateCallsAux oracle a fuel ≤ fuel := by
  induction fuel generalizing a with
  | zero => simp [isolateCallsAux]
  | succ n ih =>
    cases ho : oracle a with
    | error e =>
      simp only [isolateCallsAux, ho]
      have := ih (a + 1)
      omega
    | ok res =>
      simp only [isolateCallsAux, ho]
      by_cases hv : (validateSingleColor res.image).isValid = true
      · rw [if_pos hv]
        omega
      · rw [if_neg hv]
        have := ih (a + 1)
        omega

theorem isolateAux_ok (oracle : Nat → Except String OracleImage) (mr a fuel : Nat)
    (r : IsolationResult) (h : isolateAux oracle mr a fuel = Except.ok r) :
    a ≤ r.attempts ∧ r.attempts < a + fuel ∧
    (∃ res, oracle r.attempts = Except.ok res ∧ res.image = r.image ∧
      res.mimeType = r.mimeType ∧ validateSingleColor res.image = r.validationInfo ∧
      r.validationInfo.isValid = true) ∧
    (∀ j, a ≤ j → j < r.attempts → ¬ oracleCompliantAt oracle j) := by
  induction fuel generalizing a with
  | zero => simp [isolateAux] at h
  | succ n ih =>
    cases ho : oracle a with
    | error e =>
      simp only [isolateAux, ho] at h
      obtain ⟨h1, h2, h3, h4⟩ := ih (a + 1) h
      refine ⟨by omega, by omega, h3, ?_⟩
      intro j hj1 hj2
      by_cases hja : j = a
      · subst hja
        rintro ⟨res, hres, -⟩
        rw [ho] at hres
        cases hres
      · exact h4 j (by omega) hj2
    | ok res =>
      simp only [isolateAux, ho] at h
      by_cases hv : (validateSingleColor res.image).isValid = true
      · rw [if_pos hv] at h
        have hr := Except.ok.inj h
        subst hr
        dsimp only
        refine ⟨Nat.le_refl a, by omega, ⟨res, ho, rfl, rfl, rfl, hv⟩, ?_⟩
        intro j hj1 hj2
        omega
      · rw [if_neg hv] at h
        obtain ⟨h1, h2, h3, h4⟩ := ih (a + 1) h
        refine ⟨by omega, by omega, h3, ?_⟩
        intro j hj1 hj2
        by_cases hja : j = a
        · subst hja
          rintro ⟨res', hres', hval'⟩
          rw [ho] at hres'
          have hrr : res = res' := Except.ok.inj hres'
          subst hrr
          exact hv hval'
        · exact h4 j (by omega) hj2

theorem isolateAux_error_iff (oracle : Nat → Except String OracleImage) (mr a fuel : Nat) :
    (∃ e, isolateAux oracle mr a fuel = Except.error e) ↔
      (∀ j, a ≤ j → j < a + fuel → ¬ oracleCompliantAt oracle j) := by
  induction fuel generalizing a with
  | zero =>
    constructor
    · intro _ j hj1 hj2
      omega
    · intro _
      exact ⟨exhaustionError mr, rfl⟩
  | succ n ih =>
    cases ho : oracle a with
    | error e0 =>
      simp only [isolateAux, ho]
      rw [ih (a + 1)]
      constructor
      · intro h j hj1 hj2
        by_cases hja : j = a
        · subst hja
          rintro ⟨res, hres, -⟩
          rw [ho] at hres
          cases hres
        · exact h j (by omega) (by omega)
      · intro h j hj1 hj2
        exact h j (by omega) (by omega)
    | ok res =>
      simp only [isolateAux, ho]
      by_cases hv : (validateSingleColor res.image).isValid = true
      · rw [if_pos hv]
        constructor
        · rintro ⟨e, he⟩
          cases he
        · intro h
          exact absurd ⟨res, ho, hv⟩ (h a (Nat.le_refl a) (by omega))
      · rw [if_neg hv]
        rw [ih (a + 1)]
        constructor
        · intro h j hj1 hj2
          by_cases hja : j = a
          · subst hja
            rintro ⟨res', hres', hval'⟩
            rw [ho] at hres'
            have hrr : res = res' := Except.ok.inj hres'
            subst hrr
            exact hv hval'
          · exact h j (by omega) (by omega)
        · intro h j hj1 hj2
          exact h j (by omega) (by omega)

theorem isolateAux_error_val (oracle : Nat → Except String OracleImage) (mr a fuel : Nat)
    (e : String) (h : isolateAux oracle mr a fuel = Except.error e) :
    e = exhaustionError mr := by
  induction fuel generalizing a with
  | zero =>
    simp only [isolateAux] at h
    exact (Except.error.inj h).symm
  | succ n ih =>
    cases ho : oracle a with
    | error e0 =>
      simp only [isolateAux, ho] at h
      exact ih (a + 1) h
    | ok res =>
      simp only [isolateAux, ho] at h
      by_cases hv : (validateSingleColor res.image).isValid = true
      · rw [if_pos hv] at h
        cases h
      · rw [if_neg hv] at h
        exact ih (a + 1) h

/-- C2: with `maxAttempts = k` the retry controller makes at most `k`
oracle calls (a call ending in an oracle error still consumes an
attempt), and it either returns the first compliant isolated image — the
`attempts` field being the attempt number at which compliance was
observed, every earlier attempt being an error or non-compliant — or
throws the exhaustion error; it never returns a non-compliant image. -/
theorem isolateLayerWithValidation_spec (oracle : Nat → Except String OracleImage) (k : Nat) :
    isolationOracleCalls oracle k ≤ k ∧
    (∀ r, isolateLayerWithValidation oracle k = Except.ok r →
      r.validationInfo.isValid = true ∧
      1 ≤ r.attempts ∧ r.attempts ≤ k ∧
      (∃ res, oracle r.attempts = Except.ok res ∧ res.image = r.image ∧
        res.mimeType = r.mimeType ∧ validateSingleColor res.image = r.validationInfo) ∧
      (∀ j, 1 ≤ j → j < r.attempts → ¬ oracleCompliantAt oracle j)) ∧
    ((∃ e, isolateLayerWithValidation oracle k = Except.error e) ↔
      (∀ j, 1 ≤ j → j ≤ k → ¬ oracleCompliantAt oracle j)) ∧
    (∀ e, isolateLayerWithValidation oracle k = Except.error e → e = exhaustionError k) := by
  refine ⟨isolateAux_calls_le oracle 1 k, ?_, ?_, ?_⟩
  · intro r h
    obtain ⟨h1, h2, ⟨res, hres, hi, hm, hval, hvalid⟩, h4⟩ := isolateAux_ok oracle k 1 k r h
    exact ⟨hvalid, h1, by omega, ⟨res, hres, hi, hm, hval⟩, h4⟩
  · rw [show isolateLayerWithValidation oracle k = isolateAux oracle k 1 k from rfl]
    rw [isolateAux_error_iff oracle k 1 k]
    constructor
    · intro h j hj1 hj2
      exact h j hj1 (by omega)
    · intro h j hj1 hj2
      exact h j hj1 (by omega)
  · intro e he
    exact isolateAux_error_val oracle k 1 k e he

/-! ## Persistence: the round-trip is broken (C7) -/

/-- C7 (code bug): `saveProject` stores the un-awaited `fileToBase64`
promises, which `JSON.stringify` turns into `{}` — two projects with
different image payloads serialize identically, so no loader can recover
the payload, and `loadProject` in fact fails and returns `null`.  The
intended lossless round-trip (stated by the spec and by the source's own
"Convert Files to base64 for storage" comment) does not hold. -/
theorem saveProject_not_lossless :
    projWithA ≠ projWithB ∧
    saveProject projWithA = saveProject projWithB ∧
    loadProject (some (saveProject projWithA)) = none := by
  refine ⟨by decide, rfl, rfl⟩

/-! ## The oracle adapter collapses failures (C8) -/

/-- C8, counterexample: a quota error (HTTP 429 / RESOURCE_EXHAUSTED) and
a permanent invalid-request error surface from `isolateLayer` as the same
generic error value, and the quota failure leaves any key-pool state
untouched (no `markCurrentKeyExhausted`, which `geminiService` never
calls). -/
theorem isolateLayer_quota_indistinguishable :
    isolateLayerCall (ApiOutcome.err ⟨429, "RESOURCE_EXHAUSTED"⟩) =
      isolateLayerCall (ApiOutcome.err ⟨400, "INVALID_ARGUMENT"⟩) ∧
    isolateLayerCall (ApiOutcome.err ⟨429, "RESOURCE_EXHAUSTED"⟩) =
      Except.error genericIsolationFailure ∧
    (isolateLayerRun Nat (ApiOutcome.err ⟨429, "RESOURCE_EXHAUSTED"⟩) 0).2 = 0 :=
  ⟨rfl, rfl, rfl⟩

/-- C8, amended: every failing oracle call — quota, invalid, or a
response without an image part — is collapsed by `isolateLayer` into the
single generic error `"Failed to isolate the layer from the AI model."`,
so quota failures are not distinguishable from permanent errors, and no
call mutates any external key-pool state (credential rotation is never
triggered). -/
theorem isolateLayer_collapses_failures :
    (∀ e : ApiError, isolateLayerCall (ApiOutcome.err e) = Except.error genericIsolationFailure) ∧
    (∀ parts, firstInlineData parts = none →
      isolateLayerCall (ApiOutcome.ok parts) = Except.error genericIsolationFailure) ∧
    (∀ (σ : Type) (o : ApiOutcome) (st : σ), (isolateLayerRun σ o st).2 = st) := by
  refine ⟨fun e => rfl, ?_, fun σ o st => rfl⟩
  intro parts h
  simp [isolateLayerCall, h]

/-! ## Pipeline state-machine invariant (C9) -/

theorem layersNumbered_append (l : List LayerData) (x : LayerData) (n : Nat)
    (hl : layersNumbered l n)
    (hx : x.id = "layer-" ++ toString (n + l.length) ∧
      x.name = "Layer " ++ toString (n + l.length)) :
    layersNumbered (l ++ [x]) n := by
  induction l generalizing n with
  | nil =>
    simp only [List.length_nil, Nat.add_zero] at hx
    exact ⟨hx.1, hx.2, trivial⟩
  | cons y l ih =>
    obtain ⟨h1, h2, h3⟩ := hl
    refine ⟨h1, h2, ih (n + 1) h3 ?_⟩
    simp only [List.length_cons] at hx
    have : n + 1 + l.length = n + (l.length + 1) := by omega
    rw [this]
    exact hx

theorem layersNumbered_get (l : List LayerData) (n : Nat) (hl : layersNumbered l n) :
    ∀ i, (h : i < l.length) → (l.get ⟨i, h⟩).id = "layer-" ++ toString (n + i) := by
  induction l generalizing n with
  | nil =>
    intro i h
    simp at h
  | cons y l ih =>
    intro i h
    obtain ⟨h1, h2, h3⟩ := hl
    cases i with
    | zero => simpa using h1
    | succ j =>
      have hj : j < l.length := by simpa using h
      have := ih (n + 1) h3 j hj
      simp only [List.get_cons_succ]
      rw [this]
      have : n + 1 + j = n + (j + 1) := by omega
      rw [this]

theorem stateInv_init : stateInv initialState :=
  ⟨rfl, trivial, fun _ => rfl⟩

theorem stateInv_step (s : AppState) (a : AppAction) (hs : stateInv s) :
    stateInv (step s a) := by
  obtain ⟨hlen, hnum, himg⟩ := hs
  cases a with
  | upload f =>
    rw [step]
    cases hif : s.imageFile with
    | none => exact ⟨rfl, trivial, fun _ => rfl⟩
    | some g => exact ⟨hlen, hnum, fun h => himg (hif ▸ h)⟩
  | stageUpdate f ar =>
    exact ⟨hlen, hnum, fun h => by simp [step] at h⟩
  | approveLayer =>
    cases har : s.analysisResult with
    | none =>
      have hstep : step s AppAction.approveLayer = s := by
        rw [step, approveLayerStep, har]
      rw [hstep]
      exact ⟨hlen, hnum, himg⟩
    | some ar =>
      cases hif : s.imageFile with
      | none =>
        have hstep : step s AppAction.approveLayer = s := by
          rw [step, approveLayerStep, har, hif]
        rw [hstep]
        exact ⟨hlen, hnum, himg⟩
      | some f =>
        have hstep : step s AppAction.approveLayer =
            { imageFile := s.imageFile
              analysisResult := some { ar with layerApproved := true }
              project :=
                { originalImage := s.project.originalImage.orElse (fun _ => some f)
                  currentWorkingImage := s.project.currentWorkingImage
                  layers := s.project.layers ++
                    [{ id := "layer-" ++ toString (s.project.currentLayerIndex + 1)
                       name := "Layer " ++ toString (s.project.currentLayerIndex + 1)
                       description := ar.layer1Description
                       reasoning := ar.reasoning
                       isolationDescription := ar.isolationDescription
                       imageFile := some f
                       isolated := true
                       approved := true }]
                  currentLayerIndex := s.project.currentLayerIndex + 1 } } := by
          rw [step, approveLayerStep, har, hif]
        rw [hstep]
        refine ⟨?_, ?_, ?_⟩
        · show (s.project.layers ++ [_]).length = s.project.currentLayerIndex + 1
          simp [hlen]
        · show layersNumbered (s.project.layers ++ [_]) 1
          refine layersNumbered_append _ _ _ hnum ?_
          rw [hlen]
          have hco : 1 + s.project.currentLayerIndex = s.project.currentLayerIndex + 1 := by
            omega
          rw [hco]
          exact ⟨rfl, rfl⟩
        · show s.imageFile = none → _
          intro h
          rw [hif] at h
          cases h
  | clearImage =>
    exact ⟨rfl, trivial, fun _ => rfl⟩

theorem reachable_stateInv (s : AppState) (hs : Reachable s) : stateInv s := by
  induction hs with
  | init => exact stateInv_init
  | step s a _ ih => exact stateInv_step s a ih

theorem step_index_mono (s : AppState) (hs : stateInv s) (a : AppAction)
    (ha : a ≠ AppAction.clearImage) :
    s.project.currentLayerIndex ≤ (step s a).project.currentLayerIndex := by
  obtain ⟨hlen, hnum, himg⟩ := hs
  cases a with
  | upload f =>
    cases hif : s.imageFile with
    | none =>
      have hstep : step s (AppAction.upload f) =
          { imageFile := some f
            analysisResult := none
            project :=
              { originalImage := some f
                currentWorkingImage := some f
                layers := []
                currentLayerIndex := 0 } } := by
        rw [step, hif]
      rw [hstep, himg hif]
    | some g =>
      have hstep : step s (AppAction.upload f) = s := by
        rw [step, hif]
      rw [hstep]
  | stageUpdate f ar => exact Nat.le_of_eq rfl
  | approveLayer =>
    cases har : s.analysisResult with
    | none =>
      have hstep : step s AppAction.approveLayer = s := by
        rw [step, approveLayerStep, har]
      rw [hstep]
    | some ar =>
      cases hif : s.imageFile with
      | none =>
        have hstep : step s AppAction.approveLayer = s := by
          rw [step, approveLayerStep, har, hif]
        rw [hstep]
      | some f =>
        have hstep : (step s AppAction.approveLayer).project.currentLayerIndex =
            s.project.currentLayerIndex + 1 := by
          rw [step, approveLayerStep, har, hif]
        rw [hstep]
        omega
  | clearImage => exact absurd rfl ha

/-- C9: in every reachable App state the project satisfies
`layers.length = currentLayerIndex` with the i-th approved layer named
`layer-(i+1)`, and no action other than the explicit clear-project action
ever decreases `currentLayerIndex` (committed transitions are the upload
initialisation and each layer approval; all other handlers leave the
project untouched). -/
theorem pipeline_invariant (s : AppState) (hs : Reachable s) :
    (s.project.layers.length = s.project.currentLayerIndex ∧
      ∀ i, (h : i < s.project.layers.length) →
        (s.project.layers.get ⟨i, h⟩).id = "layer-" ++ toString (i + 1)) ∧
    (∀ a, a ≠ AppAction.clearImage →
      s.project.currentLayerIndex ≤ (step s a).project.currentLayerIndex) := by
  have hinv := reachable_stateInv s hs
  obtain ⟨hlen, hnum, himg⟩ := hinv
  refine ⟨⟨hlen, ?_⟩, ?_⟩
  · intro i h
    have hgi := layersNumbered_get _ _ hnum i h
    rw [hgi]
    have hco : 1 + i = i + 1 := by omega
    rw [hco]
  · intro a ha
    exact step_index_mono s ⟨hlen, hnum, himg⟩ a ha

/-! ## Witnesses -/

theorem validateSingleColor_spec_witness :
    distinctOpaqueColorCount imgTwoColors = 2 ∧
    validateSingleColor imgTwoColors =
      ⟨false, 2, some ⟨255, 0, 0⟩, "Multiple colors detected: 2 unique colors"⟩ ∧
    (((validateSingleColor imgTwoColors).isValid = true ↔
        distinctOpaqueColorCount imgTwoColors = 1) ∧
      (validateSingleColor imgTwoColors).colorCount = distinctOpaqueColorCount imgTwoColors ∧
      (distinctOpaqueColorCount imgTwoColors = 0 →
        validateSingleColor imgTwoColors =
          ⟨false, 0, none, "Image is completely transparent"⟩)) :=
  ⟨by decide, by decide, validateSingleColor_spec imgTwoColors⟩

theorem isolateLayerWithValidation_spec_witness :
    isolateLayerWithValidation wOracle 5 =
      Except.ok ⟨imgOneColor, "image/png", 3, ⟨true, 1, some ⟨255, 0, 0⟩, "Single color detected"⟩⟩ ∧
    isolateLayerWithValidation wBadOracle 3 = Except.error (exhaustionError 3) ∧
    (isolationOracleCalls wOracle 5 ≤ 5 ∧
      (∀ r, isolateLayerWithValidation wOracle 5 = Except.ok r →
        r.validationInfo.isValid = true ∧
        1 ≤ r.attempts ∧ r.attempts ≤ 5 ∧
        (∃ res, wOracle r.attempts = Except.ok res ∧ res.image = r.image ∧
          res.mimeType = r.mimeType ∧ validateSingleColor res.image = r.validationInfo) ∧
        (∀ j, 1 ≤ j → j < r.attempts → ¬ oracleCompliantAt wOracle j)) ∧
      ((∃ e, isolateLayerWithValidation wOracle 5 = Except.error e) ↔
        (∀ j, 1 ≤ j → j ≤ 5 → ¬ oracleCompliantAt wOracle j)) ∧
      (∀ e, isolateLayerWithValidation wOracle 5 = Except.error e → e = exhaustionError 5)) :=
  ⟨rfl, rfl, isolateLayerWithValidation_spec wOracle 5⟩

theorem weldLayersClientSide_union_spec_witness :
    (weldLayersClientSide imgTopRed [imgBottomLeftBlue] none).pixels =
      [⟨255, 0, 0, 255⟩, ⟨255, 0, 0, 255⟩, ⟨255, 0, 0, 255⟩, ⟨0, 0, 0, 0⟩] ∧
    ((weldLayersClientSide imgTopRed [imgBottomLeftBlue] none).width = imgTopRed.width ∧
      (weldLayersClientSide imgTopRed [imgBottomLeftBlue] none).height = imgTopRed.height ∧
      ∀ x y, x < imgTopRed.width → y < imgTopRed.height →
        ((0 < ((weldLayersClientSide imgTopRed [imgBottomLeftBlue] none).pix x y).a ↔
            0 < (imgTopRed.pix x y).a ∨ 0 < (imgBottomLeftBlue.pix x y).a) ∧
          (0 < ((weldLayersClientSide imgTopRed [imgBottomLeftBlue] none).pix x y).a →
            ((weldLayersClientSide imgTopRed [imgBottomLeftBlue] none).pix x y).rgb =
              extractDominantColor imgTopRed ∧
            ((weldLayersClientSide imgTopRed [imgBottomLeftBlue] none).pix x y).a = 255) ∧
          ((imgTopRed.pix x y).a = 0 ∧ (imgBottomLeftBlue.pix x y).a = 0 →
            ((weldLayersClientSide imgTopRed [imgBottomLeftBlue] none).pix x y).a = 0))) :=
  ⟨by decide, weldLayersClientSide_union_spec imgTopRed imgBottomLeftBlue rfl rfl⟩

theorem extractDominantColor_spec_witness :
    extractDominantColor imgTie = ⟨0, 0, 255⟩ ∧
    ((opaqueColors imgTie.pixels = [] → extractDominantColor imgTie = ⟨0, 0, 0⟩) ∧
      (opaqueColors imgTie.pixels ≠ [] →
        extractDominantColor imgTie ∈ opaqueColors imgTie.pixels ∧
        (∀ c ∈ opaqueColors imgTie.pixels,
          (opaqueColors imgTie.pixels).count c ≤
            (opaqueColors imgTie.pixels).count (extractDominantColor imgTie)) ∧
        (∀ c ∈ opaqueColors imgTie.pixels,
          (opaqueColors imgTie.pixels).count c =
            (opaqueColors imgTie.pixels).count (extractDominantColor imgTie) →
          c ≠ extractDominantColor imgTie →
          (opaqueColors imgTie.pixels).indexOf (extractDominantColor imgTie) <
            (opaqueColors imgTie.pixels).indexOf c))) :=
  ⟨by decide, extractDominantColor_spec imgTie⟩

theorem weld_no_dimension_check_witness :
    (weldLayersClientSide imgOneColor [imgBlank] none).width = imgOneColor.width ∧
    (weldLayersClientSide imgOneColor [imgBlank] none).height = imgOneColor.height ∧
    ∀ x y, x < imgOneColor.width → y < imgOneColor.height →
      (0 < ((weldLayersClientSide imgOneColor [imgBlank] none).pix x y).a ↔
        imgOneColor.opaqueAt x y = true ∨ ∃ p ∈ [imgBlank], p.opaqueAt x y = true) :=
  weld_no_dimension_check imgOneColor [imgBlank] none

theorem weldLayersClientSide_idempotent_witness :
    weldLayersClientSide (weldLayersClientSide imgTopRed [imgBottomLeftBlue] none) [] none =
      weldLayersClientSide imgTopRed [imgBottomLeftBlue] none :=
  weldLayersClientSide_idempotent imgTopRed imgBottomLeftBlue

theorem isolateLayer_collapses_failures_witness :
    isolateLayerCall (ApiOutcome.err ⟨503, "UNAVAILABLE"⟩) =
      Except.error genericIsolationFailure ∧
    isolateLayerCall (ApiOutcome.ok [⟨none⟩]) = Except.error genericIsolationFailure ∧
    (isolateLayerRun Nat (ApiOutcome.ok []) 7).2 = 7 :=
  ⟨isolateLayer_collapses_failures.1 ⟨503, "UNAVAILABLE"⟩,
    isolateLayer_collapses_failures.2.1 [⟨none⟩] rfl,
    isolateLayer_collapses_failures.2.2 Nat (ApiOutcome.ok []) 7⟩

theorem pipeline_invariant_witness :
    wState2.project.currentLayerIndex = 1 ∧
    ((wState2.project.layers.length = wState2.project.currentLayerIndex ∧
      ∀ i, (h : i < wState2.project.layers.length) →
        (wState2.project.layers.get ⟨i, h⟩).id = "layer-" ++ toString (i + 1)) ∧
    (∀ a, a ≠ AppAction.clearImage →
      wState2.project.currentLayerIndex ≤ (step wState2 a).project.currentLayerIndex)) :=
  ⟨rfl, pipeline_invariant wState2
    (Reachable.step wState1 AppAction.approveLayer
      (Reachable.step (step initialState (AppAction.upload wFile))
        (AppAction.stageUpdate wFile (some wAnalysis))
        (Reachable.step initialState (AppAction.upload wFile) Reachable.init)))⟩

theorem singleFill_checks_disagree_on_blank_witness :
    checkSingleFillCompliance imgBlank = true ∧
    (validateSingleColor imgBlank).isValid = false ∧
    ((opaqueColors imgBlank.pixels = [] →
        checkSingleFillCompliance imgBlank = true ∧
        (validateSingleColor imgBlank).isValid = false) ∧
      ((checkSingleFillCompliance imgBlank ≠ (validateSingleColor imgBlank).isValid) ↔
        opaqueColors imgBlank.pixels = [])) :=
  ⟨by decide, by decide, singleFill_checks_disagree_on_blank imgBlank⟩

end Cardstock
